import Mathlib

/-!
Verification of the NeonDB backup worker (src/worker.ts): a shallow
embedding of the dump-and-upload pipeline.  The pure dump builder is
modelled over an explicit database snapshot; the orchestrator is modelled
as an explicit sequential program over an oracle of query and storage
outcomes, producing a result together with a trace of observable events.
-/

namespace NeonBackup

/-- The single-quote character, built by code point to keep the file free
of quote literals. -/
def squote : Char := Char.ofNat 39

/-- The double-quote character. -/
def dquote : Char := Char.ofNat 34

/-- Single-quote as a one-character string. -/
def sqS : String := String.singleton squote

/-- Double-quote as a one-character string. -/
def dqS : String := String.singleton dquote

/-- A JavaScript value as it can appear in a row returned by the driver:
null, undefined, a string, a Date (carrying the text its toISOString
returns), or any other value (carrying the text of its default string
conversion, e.g. "42" for the number 42, "true" for true). -/
inductive JSVal where
  | null
  | undef
  | str (s : String)
  | date (iso : String)
  | raw (txt : String)
deriving DecidableEq

/-- Translation of the global regex replace in
`val.replace(/\x27/g, "\x27\x27")` (worker.ts line 147): every
single-quote character is replaced by two, character by character. -/
def escQuotesAux : List Char → List Char
  | [] => []
  | c :: cs =>
    if c = squote then squote :: squote :: escQuotesAux cs
    else c :: escQuotesAux cs

/-- String-level wrapper for `escQuotesAux`. -/
def escQuotes (s : String) : String := String.mk (escQuotesAux s.data)

/-- worker.ts lines 145-150: the value-mapping function inside
`Object.values(row).map`.  null maps to the text NULL, a string is
single-quoted with embedded quotes doubled, a Date is single-quoted ISO
text, and anything else (undefined included) is returned unchanged. -/
def formatValue : JSVal → JSVal
  | .null => .str "NULL"
  | .str s => .str (sqS ++ escQuotes s ++ sqS)
  | .date iso => .str (sqS ++ iso ++ sqS)
  | v => v

/-- The string Array.prototype.join uses for one element: strings are
used as-is, undefined and null become the empty string, other values
their default text. -/
def jsJoinStr : JSVal → String
  | .null => ""
  | .undef => ""
  | .str s => s
  | .date iso => iso
  | .raw txt => txt

/-- worker.ts line 151: `values.join(", ")` applied to the mapped values. -/
def joinVals (vs : List JSVal) : String :=
  String.intercalate ", " (vs.map (fun v => jsJoinStr (formatValue v)))

/-- A row as returned by the driver: column names with values in object
key order. -/
abbrev Row := List (String × JSVal)

/-- `Object.keys(row)`. -/
def rowKeys (r : Row) : List String := r.map Prod.fst

/-- `Object.values(row)`. -/
def rowVals (r : Row) : List JSVal := r.map Prod.snd

/-- worker.ts line 142: `Object.keys(...).map(col => "col").join(", ")`. -/
def fmtColumns (ks : List String) : String :=
  String.intercalate ", " (ks.map (fun c => dqS ++ c ++ dqS))

/-- worker.ts line 151: one INSERT statement. -/
def insertStmt (n : String) (ks : List String) (vs : List JSVal) : String :=
  "INSERT INTO " ++ dqS ++ n ++ dqS ++ " (" ++ fmtColumns ks ++ ") VALUES ("
    ++ joinVals vs ++ ");"

/-- A column as reported by information_schema.columns. -/
structure Col where
  name : String
  dataType : String
  maxLen : Option Nat
deriving DecidableEq

/-- One table of the source database: its name, its columns and the rows
`SELECT *` returns. -/
structure Table where
  name : String
  cols : List Col
  rows : List Row
deriving DecidableEq

/-- The source database: the tables of the public schema. -/
structure Db where
  tables : List Table
deriving DecidableEq

/-- One column item of the synthesized CREATE TABLE statement
(worker.ts lines 111-126): `name type` or `name type(len)`. -/
def colSpec (c : Col) : String :=
  c.name ++ " " ++ c.dataType ++
    (match c.maxLen with
     | some l => "(" ++ toString l ++ ")"
     | none => "")

/-- The CREATE TABLE statement the metadata query assembles. -/
def createStmt (t : Table) : String :=
  "CREATE TABLE " ++ dqS ++ t.name ++ dqS ++ " ("
    ++ String.intercalate ", " (t.cols.map colSpec) ++ ");"

/-- Result rows of the CREATE-statement metadata query: GROUP BY over
information_schema.columns returns one row when the table has at least
one column and no row otherwise. -/
def createRows (t : Table) : List String :=
  match t.cols with
  | [] => []
  | _ :: _ => [createStmt t]

/-- worker.ts line 108. -/
def dropStmt (n : String) : String :=
  "DROP TABLE IF EXISTS " ++ dqS ++ n ++ dqS ++ " CASCADE;"

/-- worker.ts line 107. -/
def tcomment (n : String) : String := "-- Table: " ++ n

/-- worker.ts line 136. -/
def dcomment (n : String) : String := "-- Data for " ++ n

/-- worker.ts lines 139-153: rows are processed in slices of `bs`
(`batchSize = 100`); the column list of a slice is taken from its first
row, the values from each row. -/
def insertsBatched (n : String) (bs : Nat) : List Row → List String
  | [] => []
  | r :: rs =>
    (r :: rs.take (bs - 1)).map (fun row => insertStmt n (rowKeys r) (rowVals row))
      ++ insertsBatched n bs (rs.drop (bs - 1))
termination_by l => l.length
decreasing_by
  simp only [List.length_drop, List.length_cons]
  omega

/-- The per-row emission of the earlier revision of the worker: column
list taken from each row itself. -/
def insertsPer (n : String) (rows : List Row) : List String :=
  rows.map (fun row => insertStmt n (rowKeys row) (rowVals row))

/-- worker.ts lines 104-157: the statements pushed for one table, given
the rows of the CREATE metadata query and the data rows. -/
def tableSectionFrom (n : String) (crows : List String) (rows : List Row) :
    List String :=
  [tcomment n, dropStmt n]
    ++ (match crows with
        | [] => []
        | c :: _ => [c])
    ++ (match rows with
        | [] => []
        | _ :: _ => dcomment n :: insertsBatched n 100 rows)
    ++ [""]

/-- The section of one table of the database snapshot. -/
def tableSection (t : Table) : List String :=
  tableSectionFrom t.name (createRows t) t.rows

/-- worker.ts lines 97-102: the artifact header. -/
def headerParts (isoNow dbName : String) : List String :=
  ["-- NeonDB Backup", "-- Date: " ++ isoNow, "-- Database: " ++ dbName, ""]

/-- Insert one table into a list sorted by table name (helper of the
model of the ORDER BY tablename clause of the pg_tables query). -/
def insertTable (t : Table) : List Table → List Table
  | [] => [t]
  | u :: us => if t.name ≤ u.name then t :: u :: us else u :: insertTable t us

/-- Model of `ORDER BY tablename` (worker.ts line 93): the tables come
back sorted by name. -/
def sortTables : List Table → List Table
  | [] => []
  | t :: ts => insertTable t (sortTables ts)

/-- worker.ts lines 97-157: the full statement sequence of the dump. -/
def dumpParts (isoNow dbName : String) (db : Db) : List String :=
  headerParts isoNow dbName ++ ((sortTables db.tables).map tableSection).flatten

/-- worker.ts line 161: the artifact text, parts joined by newlines. -/
def dumpJoin (isoNow dbName : String) (secs : List String) : String :=
  String.intercalate "\n" (headerParts isoNow dbName ++ secs)

/-! ### Naming policy -/

/-- A UTC timestamp broken into the fields Date.prototype.toISOString
prints. -/
structure Timestamp where
  year : Nat
  month : Nat
  day : Nat
  hour : Nat
  minute : Nat
  second : Nat
  ms : Nat
deriving DecidableEq

/-- Fixed-width zero-padded decimal digits of `n`, most significant
first. -/
def padNat : Nat → Nat → List Char
  | 0, _ => []
  | w + 1, n => padNat w (n / 10) ++ [Nat.digitChar (n % 10)]

/-- String form of `padNat`. -/
def padS (w n : Nat) : String := String.mk (padNat w n)

/-- Date.prototype.toISOString: `YYYY-MM-DDTHH:MM:SS.mmmZ`. -/
def isoString (t : Timestamp) : String :=
  padS 4 t.year ++ "-" ++ padS 2 t.month ++ "-" ++ padS 2 t.day ++ "T"
    ++ padS 2 t.hour ++ ":" ++ padS 2 t.minute ++ ":" ++ padS 2 t.second
    ++ "." ++ padS 3 t.ms ++ "Z"

/-- The character map of the regex replace `/[:.]/g` by a dash
(worker.ts line 79). -/
def replDashChar (c : Char) : Char :=
  if c = ':' ∨ c = '.' then '-' else c

/-- The regex replace applied to a whole string. -/
def replDash (s : String) : String := String.mk (s.data.map replDashChar)

/-- worker.ts lines 79-80: the backup filename derived from the
invocation timestamp. -/
def nextFilename (t : Timestamp) : String :=
  "backup-" ++ replDash (isoString t) ++ ".sql"

/-! ### Orchestrator -/

/-- Observable events of one orchestrator invocation: invocations of the
connection-close routine `client.end()` and of the storage sink
`BACKUP_BUCKET.put(key, body)`. -/
inductive Ev where
  | close
  | put (key body : String)
deriving DecidableEq

/-- Outcomes the environment hands to one invocation: the result of the
connect call, of the pg_tables query, of the two per-table queries, of
the in-try `client.end()` call, and of the upload. -/
structure Oracle where
  connectQ : Except String Unit
  tablesQ : Except String (List String)
  createQ : String → Except String (List String)
  dataQ : String → Except String (List Row)
  endOk : Bool
  putQ : String → String → Except String Unit

/-- worker.ts lines 104-157: the per-table loop; any query failure aborts
the whole build. -/
def buildLoop (o : Oracle) : List String → Except String (List String)
  | [] => .ok []
  | n :: ns =>
    match o.createQ n with
    | .error e => .error e
    | .ok crows =>
      match o.dataQ n with
      | .error e => .error e
      | .ok rows =>
        match buildLoop o ns with
        | .error e => .error e
        | .ok rest => .ok (tableSectionFrom n crows rows ++ rest)

/-- worker.ts lines 76-189: one orchestrator invocation.  Returns the
result (the filename, or the propagated error) and the trace of close
and put events.  The `finally` block always invokes `client.end()` once
more with its error swallowed. -/
def run (ts : Timestamp) (dbn : String) (o : Oracle) :
    Except String String × List Ev :=
  let filename := nextFilename ts
  match o.connectQ with
  | .error e => (.error e, [Ev.close])
  | .ok _ =>
    match o.tablesQ with
    | .error e => (.error e, [Ev.close])
    | .ok names =>
      match buildLoop o names with
      | .error e => (.error e, [Ev.close])
      | .ok secs =>
        if o.endOk then
          let dump := dumpJoin (isoString ts) dbn secs
          match o.putQ filename dump with
          | .error e => (.error e, [Ev.close, Ev.put filename dump, Ev.close])
          | .ok _ => (.ok filename, [Ev.close, Ev.put filename dump, Ev.close])
        else (.error "end failed", [Ev.close, Ev.close])

/-- Whether an Except carries a success. -/
def exOk : Except String α → Bool
  | .ok _ => true
  | .error _ => false

/-- One of the connect, metadata or data stages fails. -/
def stageFails (o : Oracle) : Prop :=
  exOk o.connectQ = false ∨ exOk o.tablesQ = false ∨
    (∃ ns, o.tablesQ = .ok ns ∧ exOk (buildLoop o ns) = false)

/-! ### Statement classification and the quoting checker -/

/-- Boolean string-prefix test on the underlying character lists. -/
def hasPref (p s : String) : Bool := p.data.isPrefixOf s.data

/-- A part is a DROP statement. -/
def isDrop (s : String) : Bool := hasPref "DROP TABLE IF EXISTS " s

/-- A part is a CREATE statement. -/
def isCreate (s : String) : Bool := hasPref "CREATE TABLE " s

/-- A part is an INSERT statement. -/
def isInsert (s : String) : Bool := hasPref "INSERT INTO " s

/-- A part is the INSERT statement of the named table. -/
def isInsertFor (n : String) (s : String) : Bool :=
  hasPref ("INSERT INTO " ++ dqS ++ n ++ dqS) s

/-- The table names announced by the per-table comment parts, in order
of appearance. -/
def tableMarkers (parts : List String) : List String :=
  parts.filterMap (fun s =>
    if hasPref "-- Table: " s then some (String.mk (s.data.drop 10)) else none)

/-- Quote-scanner state: outside any literal, inside a single-quoted
literal, inside a double-quoted identifier. -/
inductive ScanMode where
  | out
  | inS
  | inD
deriving DecidableEq

/-- One step of the quote scanner.  Outside, a single quote opens a
string literal and a double quote an identifier; inside, only the
matching quote closes (a doubled closing quote re-enters, which models
the doubling escape). -/
def scanStep (m : ScanMode) (c : Char) : ScanMode :=
  match m with
  | .out => if c = squote then .inS else if c = dquote then .inD else .out
  | .inS => if c = squote then .out else .inS
  | .inD => if c = dquote then .out else .inD

/-- Scanner over a character list. -/
def scanList (m : ScanMode) (cs : List Char) : ScanMode := cs.foldl scanStep m

/-- Whether the last character of a part is a semicolon. -/
def endsSemi (s : String) : Bool := s.data.getLast? = some ';'

/-- Well-formedness of one emitted part as standalone SQL: empty
separator lines and comment lines are fine; anything else must leave the
quote scanner balanced and be semicolon-terminated. -/
def sqlPartOk (s : String) : Bool :=
  s.isEmpty || hasPref "--" s || (scanList .out s.data == .out && endsSemi s)

/-! ### Helper lemmas -/

/-- The per-character image the specification describes: a single quote
becomes two, any other character stays itself. -/
def escCharSpec (c : Char) : List Char :=
  if c = squote then [squote, squote] else [c]

theorem escQuotesAux_eq_flatten (l : List Char) :
    escQuotesAux l = (l.map escCharSpec).flatten := by
  induction l with
  | nil => rfl
  | cons c cs ih =>
    by_cases h : c = squote <;>
      simp [escQuotesAux, escCharSpec, h, ih]

theorem data_escQuotes (s : String) :
    (escQuotes s).data = (s.data.map escCharSpec).flatten := by
  simp [escQuotes, escQuotesAux_eq_flatten]

/-! ### Claims C1 and C10: the row serializer -/

/-- Claim C1: for every string value, formatValue returns the value
wrapped in single quotes with every embedded single quote doubled and no
other character altered; in particular the string O-quote-Brien maps to
the SQL literal with the quote doubled. -/
theorem C1_string_escaping :
    (∀ s : String, ∃ o : String, formatValue (JSVal.str s) = JSVal.str o ∧
      o.data = squote :: (s.data.map escCharSpec).flatten ++ [squote]) ∧
    formatValue (JSVal.str ("O" ++ sqS ++ "Brien")) =
      JSVal.str (sqS ++ "O" ++ sqS ++ sqS ++ "Brien" ++ sqS) := by
  constructor
  · intro s
    refine ⟨sqS ++ escQuotes s ++ sqS, rfl, ?_⟩
    simp [String.data_append, sqS, data_escQuotes]
  · decide

/-- Claim C10 counterexample: a row value that is undefined is rendered
by Array.prototype.join as the empty string, not as the bare text
"undefined", so the INSERT statement for such a row differs from the one
the claim predicts. -/
theorem C10_undefined_not_rendered_as_text :
    joinVals [JSVal.undef] = "" ∧
    joinVals [JSVal.undef] ≠ "undefined" ∧
    insertStmt "t" ["a"] [JSVal.undef] ≠ insertStmt "t" ["a"] [JSVal.raw "undefined"] := by
  refine ⟨rfl, ?_, ?_⟩ <;> decide

/-- Claim C10 as amended: formatValue leaves undefined untouched but the
join of the value list renders it as the empty string; null is rendered
as unquoted NULL, strings and dates as single-quoted literals, and every
other value through its default textual conversion, unquoted.  The
unquoted text NULL therefore arises exactly from null itself or from a
passthrough value whose default text is NULL. -/
theorem C10_serializer_characterization :
    jsJoinStr (formatValue JSVal.null) = "NULL" ∧
    jsJoinStr (formatValue JSVal.undef) = "" ∧
    (∀ txt, jsJoinStr (formatValue (JSVal.raw txt)) = txt) ∧
    (∀ s, jsJoinStr (formatValue (JSVal.str s)) = sqS ++ escQuotes s ++ sqS) ∧
    (∀ iso, jsJoinStr (formatValue (JSVal.date iso)) = sqS ++ iso ++ sqS) ∧
    (∀ v, jsJoinStr (formatValue v) = "NULL" ↔
      (v = JSVal.null ∨ v = JSVal.raw "NULL")) := by
  refine ⟨rfl, rfl, fun txt => rfl, fun s => rfl, fun iso => rfl, fun v => ?_⟩
  cases v with
  | null => simp [formatValue, jsJoinStr]
  | undef => simp [formatValue, jsJoinStr]
  | raw txt => simp [formatValue, jsJoinStr]
  | str s =>
    simp only [formatValue, jsJoinStr]
    constructor
    · intro h
      exfalso
      have hd := String.ext_iff.mp h
      simp [String.data_append, sqS] at hd
      exact absurd hd.1 (by decide)
    · rintro (h | h) <;> exact absurd h (by simp)
  | date iso =>
    simp only [formatValue, jsJoinStr]
    constructor
    · intro h
      exfalso
      have hd := String.ext_iff.mp h
      simp [String.data_append, sqS] at hd
      exact absurd hd.1 (by decide)
    · rintro (h | h) <;> exact absurd h (by simp)

/-- Witness for the amended C10 at a concrete value: the iff applied to
undefined. -/
theorem C10_serializer_characterization_witness :
    ¬ (JSVal.undef = JSVal.null ∨ JSVal.undef = JSVal.raw "NULL") := by
  intro h
  have hiff := (C10_serializer_characterization.2.2.2.2.2 JSVal.undef).mpr h
  have : ("" : String) = "NULL" := by
    calc ("" : String) = jsJoinStr (formatValue JSVal.undef) := rfl
    _ = "NULL" := hiff
  exact absurd this (by decide)

/-! ### Claim C5: batching of INSERT emission -/

/-- Claim C5 counterexample: for rows whose key sets differ, the batched
emission (column list from the first row of the batch) differs from the
per-row emission (column list from each row), so the equivalence does
not hold for every list of rows. -/
theorem C5_batching_counterexample :
    insertsBatched "t" 100 [[("a", JSVal.raw "1")], [("b", JSVal.raw "2")]]
      ≠ insertsPer "t" [[("a", JSVal.raw "1")], [("b", JSVal.raw "2")]] := by
  simp [insertsBatched, insertsPer]
  decide

theorem insertsBatched_eq_insertsPer_aux (n : String) (ks : List String)
    (bs : Nat) (m : Nat) :
    ∀ rows : List Row, rows.length ≤ m → (∀ r ∈ rows, rowKeys r = ks) →
      insertsBatched n bs rows = insertsPer n rows := by
  induction m with
  | zero =>
    intro rows hlen _
    have : rows = [] := List.eq_nil_of_length_eq_zero (Nat.le_zero.mp hlen)
    subst this
    simp [insertsBatched, insertsPer]
  | succ m ih =>
    intro rows hlen hk
    match rows with
    | [] => simp [insertsBatched, insertsPer]
    | r :: rs =>
      rw [insertsBatched]
      have hdrop : insertsBatched n bs (rs.drop (bs - 1)) =
          insertsPer n (rs.drop (bs - 1)) := by
        refine ih _ ?_ ?_
        · have h1 : (rs.drop (bs - 1)).length ≤ rs.length := by
            simp [List.length_drop]
          have h2 : rs.length ≤ m := by
            simpa [Nat.succ_le_succ_iff] using hlen
          exact le_trans h1 h2
        · intro x hx
          exact hk x (List.mem_cons_of_mem r (List.mem_of_mem_drop hx))
      have hmap : (r :: rs.take (bs - 1)).map
            (fun row => insertStmt n (rowKeys r) (rowVals row)) =
          (r :: rs.take (bs - 1)).map
            (fun row => insertStmt n (rowKeys row) (rowVals row)) := by
        refine List.map_congr_left ?_
        intro x hx
        have hxk : rowKeys x = ks := by
          rcases List.mem_cons.mp hx with h | h
          · subst h; exact hk x (List.mem_cons_self x rs)
          · exact hk x (List.mem_cons_of_mem r (List.mem_of_mem_take h))
        rw [hxk, hk r (List.mem_cons_self r rs)]
      rw [hmap, hdrop]
      have hsplit : r :: rs = (r :: rs.take (bs - 1)) ++ rs.drop (bs - 1) := by
        simp [List.take_append_drop]
      calc (r :: rs.take (bs - 1)).map
            (fun row => insertStmt n (rowKeys row) (rowVals row))
            ++ insertsPer n (rs.drop (bs - 1))
          = insertsPer n ((r :: rs.take (bs - 1)) ++ rs.drop (bs - 1)) := by
            simp [insertsPer]
        _ = insertsPer n (r :: rs) := by rw [← hsplit]

/-- Claim C5 as amended: when all rows carry the same column-key list
(as the rows of a single `SELECT *` result do), grouping into batches of
any size produces exactly the per-row sequence of INSERT statements, so
the batch size makes no difference; without that proviso the claimed
equivalence fails (see the counterexample). -/
theorem C5_batching_equivalence (n : String) (ks : List String)
    (rows : List Row) (bs : Nat) (hk : ∀ r ∈ rows, rowKeys r = ks) :
    insertsBatched n bs rows = insertsPer n rows ∧
    insertsBatched n bs rows = insertsBatched n 100 rows := by
  have h1 := insertsBatched_eq_insertsPer_aux n ks bs rows.length rows
    (le_refl _) hk
  have h2 := insertsBatched_eq_insertsPer_aux n ks 100 rows.length rows
    (le_refl _) hk
  exact ⟨h1, h1.trans h2.symm⟩

/-- Witness for the amended C5 at a concrete table: two same-keyed rows,
batch size 1 versus per-row emission. -/
theorem C5_batching_equivalence_witness :
    insertsBatched "t" 1 [[("a", JSVal.raw "1")], [("a", JSVal.raw "2")]]
      = insertsPer "t" [[("a", JSVal.raw "1")], [("a", JSVal.raw "2")]] :=
  (C5_batching_equivalence "t" ["a"]
    [[("a", JSVal.raw "1")], [("a", JSVal.raw "2")]] 1 (by decide)).1

/-! ### Orchestrator lemmas -/

theorem put_mem_run (ts : Timestamp) (dbn : String) (o : Oracle)
    (k d : String) (h : Ev.put k d ∈ (run ts dbn o).2) :
    o.connectQ = .ok () ∧ ∃ ns secs, o.tablesQ = .ok ns ∧
      buildLoop o ns = .ok secs ∧ o.endOk = true ∧
      k = nextFilename ts ∧ d = dumpJoin (isoString ts) dbn secs := by
  cases hc : o.connectQ with
  | error e => simp [run, hc] at h
  | ok u =>
    cases u
    cases htq : o.tablesQ with
    | error e => simp [run, hc, htq] at h
    | ok ns =>
      cases hb : buildLoop o ns with
      | error e => simp [run, hc, htq, hb] at h
      | ok secs =>
        cases he : o.endOk with
        | false => simp [run, hc, htq, hb, he] at h
        | true =>
          cases hp : o.putQ (nextFilename ts) (dumpJoin (isoString ts) dbn secs) with
          | error e =>
            simp [run, hc, htq, hb, he, hp] at h
            exact ⟨rfl, ns, secs, rfl, hb, rfl, h.1, h.2⟩
          | ok v =>
            cases v
            simp [run, hc, htq, hb, he, hp] at h
            exact ⟨rfl, ns, secs, rfl, hb, rfl, h.1, h.2⟩

theorem stage_fail_run (ts : Timestamp) (dbn : String) (o : Oracle)
    (h : stageFails o) :
    exOk (run ts dbn o).1 = false ∧ (run ts dbn o).2 = [Ev.close] := by
  rcases h with h | h | ⟨ns, hns, h⟩
  · cases hc : o.connectQ with
    | error e => simp [run, hc, exOk]
    | ok u => rw [hc] at h; simp [exOk] at h
  · cases hc : o.connectQ with
    | error e => simp [run, hc, exOk]
    | ok u =>
      cases u
      cases htq : o.tablesQ with
      | error e => simp [run, hc, htq, exOk]
      | ok ns => rw [htq] at h; simp [exOk] at h
  · cases hc : o.connectQ with
    | error e => simp [run, hc, exOk]
    | ok u =>
      cases u
      cases hb : buildLoop o ns with
      | error e => simp [run, hc, hns, hb, exOk]
      | ok secs => rw [hb] at h; simp [exOk] at h

theorem run_ok_filename (ts : Timestamp) (dbn : String) (o : Oracle)
    (f : String) (h : (run ts dbn o).1 = .ok f) : f = nextFilename ts := by
  cases hc : o.connectQ with
  | error e => simp [run, hc] at h
  | ok u =>
    cases u
    cases htq : o.tablesQ with
    | error e => simp [run, hc, htq] at h
    | ok ns =>
      cases hb : buildLoop o ns with
      | error e => simp [run, hc, htq, hb] at h
      | ok secs =>
        cases he : o.endOk with
        | false => simp [run, hc, htq, hb, he] at h
        | true =>
          cases hp : o.putQ (nextFilename ts) (dumpJoin (isoString ts) dbn secs) with
          | error e => simp [run, hc, htq, hb, he, hp] at h
          | ok v =>
            cases v
            simp [run, hc, htq, hb, he, hp] at h
            exact h.symm

/-- A fixed invocation timestamp used by concrete instantiations. -/
def ts0 : Timestamp := ⟨2025, 11, 19, 1, 0, 0, 0⟩

/-- An environment whose connect call fails. -/
def oConnFail : Oracle :=
  { connectQ := .error "down", tablesQ := .ok [], createQ := fun _ => .ok [],
    dataQ := fun _ => .ok [], endOk := true, putQ := fun _ _ => .ok () }

/-- An environment where every stage succeeds (an empty schema). -/
def oAllOk : Oracle :=
  { connectQ := .ok (), tablesQ := .ok [], createQ := fun _ => .ok [],
    dataQ := fun _ => .ok [], endOk := true, putQ := fun _ _ => .ok () }

/-- An environment where everything succeeds except the upload. -/
def oPutFail : Oracle :=
  { connectQ := .ok (), tablesQ := .ok [], createQ := fun _ => .ok [],
    dataQ := fun _ => .ok [], endOk := true, putQ := fun _ _ => .error "boom" }

/-! ### Claim C3: no upload after a failure -/

/-- Claim C3: a put event can only occur when connect, the metadata
query and every data query succeeded, and its body is the complete
artifact; conversely, if any of those stages fails, the invocation ends
in failure and no put event occurs. -/
theorem C3_no_upload_after_failure (ts : Timestamp) (dbn : String) (o : Oracle) :
    (∀ k d, Ev.put k d ∈ (run ts dbn o).2 →
      o.connectQ = .ok () ∧ ∃ ns secs, o.tablesQ = .ok ns ∧
        buildLoop o ns = .ok secs ∧ o.endOk = true ∧
        k = nextFilename ts ∧ d = dumpJoin (isoString ts) dbn secs) ∧
    (stageFails o → exOk (run ts dbn o).1 = false ∧
      ∀ k d, Ev.put k d ∉ (run ts dbn o).2) := by
  refine ⟨fun k d h => put_mem_run ts dbn o k d h, fun h => ?_⟩
  obtain ⟨h1, h2⟩ := stage_fail_run ts dbn o h
  refine ⟨h1, fun k d hmem => ?_⟩
  rw [h2] at hmem
  simp at hmem

/-- Witness for C3: with a failing connect call, the invocation fails
and no put event is in the trace. -/
theorem C3_no_upload_after_failure_witness :
    exOk (run ts0 "neondb" oConnFail).1 = false ∧
    Ev.put "x" "y" ∉ (run ts0 "neondb" oConnFail).2 := by
  have h := (C3_no_upload_after_failure ts0 "neondb" oConnFail).2
    (Or.inl rfl)
  exact ⟨h.1, h.2 "x" "y"⟩

/-! ### Claim C4: upload failure -/

/-- Claim C4 counterexample: when the upload fails, the invocation ends
in failure, but the connection-close routine is invoked twice (once at
the end of the try block, once in the finally block), not exactly once
as claimed. -/
theorem C4_close_count_counterexample :
    exOk (run ts0 "neondb" oPutFail).1 = false ∧
    (run ts0 "neondb" oPutFail).2.count Ev.close = 2 ∧
    ¬ (run ts0 "neondb" oPutFail).2.count Ev.close = 1 := by
  decide

/-- Claim C4 as amended: if the storage put fails while every earlier
stage succeeded, the orchestrator ends in the failed state with the
upload error, and the connection-close routine is invoked exactly twice
over the invocation: the normal close after the dump completes and the
best-effort close of the cleanup handler. -/
theorem C4_upload_failure_closes_twice (ts : Timestamp) (dbn : String)
    (o : Oracle) (ns secs : List String) (e : String)
    (hc : o.connectQ = .ok ()) (ht : o.tablesQ = .ok ns)
    (hb : buildLoop o ns = .ok secs) (he : o.endOk = true)
    (hp : ∀ k d, o.putQ k d = .error e) :
    (run ts dbn o).1 = .error e ∧
    (run ts dbn o).2.count Ev.close = 2 := by
  simp [run, hc, ht, hb, he, hp]

/-- Witness for the amended C4 at the concrete failing-upload
environment. -/
theorem C4_upload_failure_closes_twice_witness :
    (run ts0 "neondb" oPutFail).1 = .error "boom" ∧
    (run ts0 "neondb" oPutFail).2.count Ev.close = 2 :=
  C4_upload_failure_closes_twice ts0 "neondb" oPutFail [] [] "boom"
    rfl rfl rfl rfl (fun _ _ => rfl)

/-! ### Claim C9: the filename is a pure function of the timestamp -/

/-- Claim C9: every put event of any invocation uses the filename
derived purely from the invocation timestamp, and a successful
invocation returns exactly that filename, whatever the database
contents, schema or storage behaviour; hence two invocations at the
same timestamp use the same filename. -/
theorem C9_filename_pure_function (ts : Timestamp) (dbn : String) (o : Oracle) :
    (∀ k d, Ev.put k d ∈ (run ts dbn o).2 → k = nextFilename ts) ∧
    (∀ f, (run ts dbn o).1 = .ok f → f = nextFilename ts) ∧
    (∀ dbn2 (o2 : Oracle) (f f2 : String), (run ts dbn o).1 = .ok f →
      (run ts dbn2 o2).1 = .ok f2 → f = f2) := by
  refine ⟨fun k d h => ?_, fun f h => run_ok_filename ts dbn o f h,
    fun dbn2 o2 f f2 h h2 => ?_⟩
  · exact (put_mem_run ts dbn o k d h).2.choose_spec.choose_spec.2.2.2.1
  · rw [run_ok_filename ts dbn o f h, run_ok_filename ts dbn2 o2 f2 h2]

/-- Witness for C9: a successful invocation over an empty schema at the
fixed timestamp returns the timestamp-derived filename. -/
theorem C9_filename_pure_function_witness :
    ("backup-2025-11-19T01-00-00-000Z.sql" : String) = nextFilename ts0 :=
  (C9_filename_pure_function ts0 "neondb" oAllOk).2.1
    "backup-2025-11-19T01-00-00-000Z.sql" (by rfl)

/-! ### String-prefix helper lemmas -/

theorem strExt {a b : String} (h : a.data = b.data) : a = b := by
  cases a; cases b; exact congrArg String.mk h

theorem take_pref {p q : List Char} (n : Nat) (h : p <+: q) :
    p.take n <+: q.take n := by
  obtain ⟨t, rfl⟩ := h
  rw [List.take_append_eq_append_take]
  exact List.prefix_append _ _

theorem front_pref (a x : String) : a.data <+: (a ++ x).data := by
  rw [String.data_append]
  exact List.prefix_append _ _

theorem hasPref_iff {p s : String} : hasPref p s = true ↔ p.data <+: s.data := by
  simp [hasPref, List.isPrefixOf_iff_prefix]

/-- A pattern whose fixed front disagrees with the fixed front of the
target is not a prefix of it. -/
theorem hasPref_false_double (A x a y : String)
    (h : ¬ (A.data.take a.data.length <+: a.data)) :
    hasPref (A ++ x) (a ++ y) = false := by
  rw [Bool.eq_false_iff]
  intro hp
  apply h
  have h1 : A.data <+: (a ++ y).data := (front_pref A x).trans (hasPref_iff.mp hp)
  rw [String.data_append] at h1
  have h2 := take_pref a.data.length h1
  rwa [List.take_left] at h2

/-- Same, with a fully fixed target. -/
theorem hasPref_false_front (A x q : String)
    (h : ¬ (A.data.take q.data.length <+: q.data)) :
    hasPref (A ++ x) q = false := by
  rw [Bool.eq_false_iff]
  intro hp
  apply h
  have h1 : A.data <+: q.data := (front_pref A x).trans (hasPref_iff.mp hp)
  have h2 := take_pref q.data.length h1
  rwa [List.take_length] at h2

/-- A pattern that is a prefix of the fixed front of the target is a
prefix of the whole. -/
theorem hasPref_true_front (p a x : String) (h : p.data <+: a.data) :
    hasPref p (a ++ x) = true := by
  rw [hasPref_iff, String.data_append]
  exact h.trans (List.prefix_append _ _)

/-- Two strings with incompatible fixed fronts differ. -/
theorem ne_of_front (a x b y : String)
    (h : ¬ (a.data.take b.data.length <+: b.data)) : a ++ x ≠ b ++ y := by
  intro he
  apply h
  have hp : (a ++ x).data <+: (b ++ y).data := by rw [he]
  have h1 : a.data <+: (b ++ y).data := (front_pref a x).trans hp
  rw [String.data_append] at h1
  have h2 := take_pref b.data.length h1
  rwa [List.take_left] at h2

/-- Variant with a fully fixed right-hand side. -/
theorem ne_of_front2 (a x b : String)
    (h : ¬ (a.data.take b.data.length <+: b.data)) : a ++ x ≠ b := by
  intro he
  apply h
  have hp : (a ++ x).data <+: b.data := by rw [he]
  have h1 : a.data <+: b.data := (front_pref a x).trans hp
  have h2 := take_pref b.data.length h1
  rwa [List.take_length] at h2

/-- A string with a nonempty front is nonempty. -/
theorem ne_empty_of_front (a x : String) (h : a.data ≠ []) : a ++ x ≠ "" := by
  intro he
  have h1 : (a ++ x).data = ("" : String).data := congrArg String.data he
  rw [String.data_append] at h1
  cases hd : a.data with
  | nil => exact h hd
  | cons c cs => rw [hd] at h1; simp at h1

/-- If a double-quote-terminated name is a prefix of another
double-quote-terminated text and neither name contains a double quote,
the names are equal. -/
theorem eq_of_quoted_pref (a b t2 : List Char) (ha : dquote ∉ a)
    (hb : dquote ∉ b) (h : a ++ [dquote] <+: b ++ dquote :: t2) : a = b := by
  induction a generalizing b with
  | nil =>
    cases b with
    | nil => rfl
    | cons c bs =>
      rw [List.nil_append, List.cons_append, List.cons_prefix_cons] at h
      have hm : dquote ∈ c :: bs := by
        rw [h.1]
        exact List.mem_cons_self c bs
      exact absurd hm hb
  | cons c as ih =>
    cases b with
    | nil =>
      rw [List.cons_append, List.nil_append, List.cons_prefix_cons] at h
      have hm : dquote ∈ c :: as := by
        rw [h.1]
        exact List.mem_cons_self dquote as
      exact absurd hm ha
    | cons c2 bs =>
      rw [List.cons_append, List.cons_append, List.cons_prefix_cons] at h
      obtain ⟨hc, htl⟩ := h
      have ha2 : dquote ∉ as := fun hm => ha (List.mem_cons_of_mem c hm)
      have hb2 : dquote ∉ bs := fun hm => hb (List.mem_cons_of_mem c2 hm)
      rw [hc, ih bs ha2 hb2 htl]

/-! ### Shapes of the emitted parts -/

theorem dropStmt_shape (n : String) :
    dropStmt n = ("DROP TABLE IF EXISTS " ++ dqS) ++ (n ++ (dqS ++ " CASCADE;")) := by
  simp [dropStmt, String.append_assoc]

theorem createStmt_shape (t : Table) :
    createStmt t = ("CREATE TABLE " ++ dqS) ++
      (t.name ++ (dqS ++ (" (" ++ (String.intercalate ", " (t.cols.map colSpec) ++ ");")))) := by
  simp [createStmt, String.append_assoc]

theorem insertStmt_shape (n : String) (ks : List String) (vs : List JSVal) :
    insertStmt n ks vs = ("INSERT INTO " ++ dqS) ++
      (n ++ (dqS ++ (" (" ++ (fmtColumns ks ++ (") VALUES (" ++ (joinVals vs ++ ");")))))) := by
  simp [insertStmt, String.append_assoc]

theorem insertForPattern_shape (n : String) :
    "INSERT INTO " ++ dqS ++ n ++ dqS = ("INSERT INTO " ++ dqS) ++ (n ++ dqS) := by
  simp [String.append_assoc]

/-! ### Membership shapes of the emitted sections -/

theorem mem_insertsBatched_aux (n : String) (bs m : Nat) :
    ∀ rows : List Row, rows.length ≤ m → ∀ s ∈ insertsBatched n bs rows,
      ∃ ks vs, s = insertStmt n ks vs := by
  induction m with
  | zero =>
    intro rows hlen s hs
    have : rows = [] := List.eq_nil_of_length_eq_zero (Nat.le_zero.mp hlen)
    subst this
    simp [insertsBatched] at hs
  | succ m ih =>
    intro rows hlen s hs
    match rows with
    | [] => simp [insertsBatched] at hs
    | r :: rs =>
      rw [insertsBatched] at hs
      rcases List.mem_append.mp hs with h1 | h2
      · obtain ⟨row, _, heq⟩ := List.mem_map.mp h1
        exact ⟨rowKeys r, rowVals row, heq.symm⟩
      · have hl2 : (List.drop (bs - 1) rs).length ≤ m := by
          rw [List.length_drop]
          have h3 : rs.length ≤ m := by
            simpa [Nat.succ_le_succ_iff] using hlen
          omega
        exact ih (rs.drop (bs - 1)) hl2 s h2

theorem mem_insertsBatched {n : String} {bs : Nat} {rows : List Row}
    {s : String} (h : s ∈ insertsBatched n bs rows) :
    ∃ ks vs, s = insertStmt n ks vs :=
  mem_insertsBatched_aux n bs rows.length rows (le_refl _) s h

theorem countP_insertsBatched {p : String → Bool} {n : String} {bs : Nat}
    {rows : List Row} (h : ∀ ks vs, p (insertStmt n ks vs) = false) :
    (insertsBatched n bs rows).countP p = 0 := by
  rw [List.countP_eq_zero]
  intro s hs
  obtain ⟨ks, vs, rfl⟩ := mem_insertsBatched hs
  simp [h]

theorem mem_tableSection {s : String} {t : Table} (h : s ∈ tableSection t) :
    s = tcomment t.name ∨ s = dropStmt t.name ∨ s = createStmt t ∨
      s = dcomment t.name ∨ (∃ ks vs, s = insertStmt t.name ks vs) ∨ s = "" := by
  rcases t with ⟨n, cols, rows⟩
  cases cols with
  | nil =>
    cases rows with
    | nil =>
      simp only [tableSection, tableSectionFrom, createRows] at h
      simp only [List.append_nil, List.nil_append, List.cons_append,
        List.mem_cons, List.mem_singleton, List.not_mem_nil, or_false] at h
      rcases h with h | h | h <;> simp [h]
    | cons r rs =>
      simp only [tableSection, tableSectionFrom, createRows] at h
      simp only [List.nil_append, List.cons_append, List.mem_cons,
        List.mem_append] at h
      rcases h with h | h | h | h
      · simp [h]
      · simp [h]
      · simp [h]
      rcases h with h | h
      · obtain ⟨ks, vs, rfl⟩ := mem_insertsBatched h
        simp
      · have h2 : s = "" := by simpa using h
        simp [h2]
  | cons c cs =>
    cases rows with
    | nil =>
      simp only [tableSection, tableSectionFrom, createRows] at h
      simp only [List.nil_append, List.cons_append, List.mem_cons,
        List.mem_singleton, List.not_mem_nil, or_false] at h
      rcases h with h | h | h | h <;> simp [h]
    | cons r rs =>
      simp only [tableSection, tableSectionFrom, createRows] at h
      simp only [List.nil_append, List.cons_append, List.mem_cons,
        List.mem_append] at h
      rcases h with h | h | h | h | h
      · simp [h]
      · simp [h]
      · simp [h]
      · simp [h]
      rcases h with h | h
      · obtain ⟨ks, vs, rfl⟩ := mem_insertsBatched h
        simp
      · have h2 : s = "" := by simpa using h
        simp [h2]

/-! ### Sorting lemmas -/

theorem length_insertTable (t : Table) (l : List Table) :
    (insertTable t l).length = l.length + 1 := by
  induction l with
  | nil => rfl
  | cons u us ih => by_cases h : t.name ≤ u.name <;> simp [insertTable, h, ih]

theorem length_sortTables (l : List Table) : (sortTables l).length = l.length := by
  induction l with
  | nil => rfl
  | cons t ts ih => simp [sortTables, length_insertTable, ih]

theorem mem_insertTable {u t : Table} {l : List Table} :
    u ∈ insertTable t l ↔ u = t ∨ u ∈ l := by
  induction l with
  | nil => simp [insertTable]
  | cons v vs ih =>
    by_cases h : t.name ≤ v.name
    · simp [insertTable, h]
    · simp [insertTable, h, ih]
      tauto

theorem mem_sortTables {t : Table} {l : List Table} :
    t ∈ sortTables l ↔ t ∈ l := by
  induction l with
  | nil => simp [sortTables]
  | cons u us ih => simp [sortTables, mem_insertTable, ih]

theorem sorted_insertTable (t : Table) (l : List Table)
    (h : List.Sorted (· ≤ ·) (l.map Table.name)) :
    List.Sorted (· ≤ ·) ((insertTable t l).map Table.name) := by
  induction l with
  | nil => simp [insertTable]
  | cons u us ih =>
    rw [List.map_cons, List.sorted_cons] at h
    by_cases hle : t.name ≤ u.name
    · simp only [insertTable, hle, if_true, List.map_cons]
      rw [List.sorted_cons]
      refine ⟨?_, ?_⟩
      · intro b hb
        rcases List.mem_cons.mp hb with rfl | hb2
        · exact hle
        · exact le_trans hle (h.1 b hb2)
      · rw [List.sorted_cons]
        exact h
    · simp only [insertTable, hle, if_false, List.map_cons]
      rw [List.sorted_cons]
      refine ⟨?_, ih h.2⟩
      intro b hb
      have hsplit : b = t.name ∨ b ∈ us.map Table.name := by
        obtain ⟨x, hx, rfl⟩ := List.mem_map.mp hb
        rcases mem_insertTable.mp hx with rfl | hx2
        · exact Or.inl rfl
        · exact Or.inr (List.mem_map_of_mem _ hx2)
      rcases hsplit with rfl | hb2
      · exact le_of_not_le hle
      · exact h.1 b hb2

theorem sorted_sortTables (l : List Table) :
    List.Sorted (· ≤ ·) ((sortTables l).map Table.name) := by
  induction l with
  | nil => simp [sortTables]
  | cons t ts ih => exact sorted_insertTable t (sortTables ts) ih

/-! ### Classification of the emitted parts -/

theorem hasPref_false_head (p a y : String)
    (h : ¬ (p.data.take a.data.length <+: a.data)) :
    hasPref p (a ++ y) = false := by
  rw [Bool.eq_false_iff]
  intro hp
  apply h
  have h1 : p.data <+: (a ++ y).data := hasPref_iff.mp hp
  rw [String.data_append] at h1
  have h2 := take_pref a.data.length h1
  rwa [List.take_left] at h2

theorem isDrop_drop (n : String) : isDrop (dropStmt n) = true := by
  rw [isDrop, dropStmt_shape]
  exact hasPref_true_front _ _ _ (by decide)

theorem isDrop_tcomment (n : String) : isDrop (tcomment n) = false := by
  rw [isDrop, tcomment]
  exact hasPref_false_head _ _ _ (by decide)

theorem isDrop_dcomment (n : String) : isDrop (dcomment n) = false := by
  rw [isDrop, dcomment]
  exact hasPref_false_head _ _ _ (by decide)

theorem isDrop_create (t : Table) : isDrop (createStmt t) = false := by
  rw [isDrop, createStmt_shape]
  exact hasPref_false_head _ _ _ (by decide)

theorem isDrop_insert (n : String) (ks : List String) (vs : List JSVal) :
    isDrop (insertStmt n ks vs) = false := by
  rw [isDrop, insertStmt_shape]
  exact hasPref_false_head _ _ _ (by decide)

theorem isDrop_date (iso : String) : isDrop ("-- Date: " ++ iso) = false := by
  rw [isDrop]
  exact hasPref_false_head _ _ _ (by decide)

theorem isDrop_dbn (d : String) : isDrop ("-- Database: " ++ d) = false := by
  rw [isDrop]
  exact hasPref_false_head _ _ _ (by decide)

theorem isCreate_create (t : Table) : isCreate (createStmt t) = true := by
  rw [isCreate, createStmt_shape]
  exact hasPref_true_front _ _ _ (by decide)

theorem isCreate_drop (n : String) : isCreate (dropStmt n) = false := by
  rw [isCreate, dropStmt_shape]
  exact hasPref_false_head _ _ _ (by decide)

theorem isCreate_tcomment (n : String) : isCreate (tcomment n) = false := by
  rw [isCreate, tcomment]
  exact hasPref_false_head _ _ _ (by decide)

theorem isCreate_dcomment (n : String) : isCreate (dcomment n) = false := by
  rw [isCreate, dcomment]
  exact hasPref_false_head _ _ _ (by decide)

theorem isCreate_insert (n : String) (ks : List String) (vs : List JSVal) :
    isCreate (insertStmt n ks vs) = false := by
  rw [isCreate, insertStmt_shape]
  exact hasPref_false_head _ _ _ (by decide)

theorem isCreate_date (iso : String) : isCreate ("-- Date: " ++ iso) = false := by
  rw [isCreate]
  exact hasPref_false_head _ _ _ (by decide)

theorem isCreate_dbn (d : String) : isCreate ("-- Database: " ++ d) = false := by
  rw [isCreate]
  exact hasPref_false_head _ _ _ (by decide)

theorem hasMarker_tcomment (n : String) :
    hasPref "-- Table: " (tcomment n) = true := by
  rw [tcomment]
  exact hasPref_true_front _ _ _ (by decide)

theorem hasMarker_drop (n : String) :
    hasPref "-- Table: " (dropStmt n) = false := by
  rw [dropStmt_shape]
  exact hasPref_false_head _ _ _ (by decide)

theorem hasMarker_create (t : Table) :
    hasPref "-- Table: " (createStmt t) = false := by
  rw [createStmt_shape]
  exact hasPref_false_head _ _ _ (by decide)

theorem hasMarker_dcomment (n : String) :
    hasPref "-- Table: " (dcomment n) = false := by
  rw [dcomment]
  exact hasPref_false_head _ _ _ (by decide)

theorem hasMarker_insert (n : String) (ks : List String) (vs : List JSVal) :
    hasPref "-- Table: " (insertStmt n ks vs) = false := by
  rw [insertStmt_shape]
  exact hasPref_false_head _ _ _ (by decide)

theorem hasMarker_date (iso : String) :
    hasPref "-- Table: " ("-- Date: " ++ iso) = false :=
  hasPref_false_head _ _ _ (by decide)

theorem hasMarker_dbn (d : String) :
    hasPref "-- Table: " ("-- Database: " ++ d) = false :=
  hasPref_false_head _ _ _ (by decide)

theorem marker_extract (n : String) :
    String.mk ((tcomment n).data.drop 10) = n := by
  have h10 : ("-- Table: ").data.length = 10 := by decide
  rw [tcomment, String.data_append, ← h10, List.drop_left]

/-! ### Per-section and per-artifact counting -/

theorem countP_isDrop_section (t : Table) :
    (tableSection t).countP isDrop = 1 := by
  rcases t with ⟨n, cols, rows⟩
  cases cols <;> cases rows <;>
    simp [tableSection, tableSectionFrom, createRows, List.countP_append,
      List.countP_cons, isDrop_tcomment, isDrop_drop, isDrop_create,
      isDrop_dcomment, countP_insertsBatched (isDrop_insert n),
      show isDrop "" = false from by decide]

theorem countP_isCreate_section_pos (t : Table) (h : t.cols ≠ []) :
    (tableSection t).countP isCreate = 1 := by
  rcases t with ⟨n, cols, rows⟩
  cases cols with
  | nil => exact absurd rfl h
  | cons c cs =>
    cases rows <;>
      simp [tableSection, tableSectionFrom, createRows, List.countP_append,
        List.countP_cons, isCreate_tcomment, isCreate_drop, isCreate_create,
        isCreate_dcomment, countP_insertsBatched (isCreate_insert n),
        show isCreate "" = false from by decide]

theorem countP_isCreate_section_nil (t : Table) (h : t.cols = []) :
    (tableSection t).countP isCreate = 0 := by
  rcases t with ⟨n, cols, rows⟩
  subst h
  cases rows <;>
    simp [tableSection, tableSectionFrom, createRows, List.countP_append,
      List.countP_cons, isCreate_tcomment, isCreate_drop,
      isCreate_dcomment, countP_insertsBatched (isCreate_insert n),
      show isCreate "" = false from by decide]

theorem countP_isDrop_header (i d : String) :
    (headerParts i d).countP isDrop = 0 := by
  simp [headerParts, List.countP_cons, isDrop_date, isDrop_dbn,
    show isDrop "-- NeonDB Backup" = false from by decide,
    show isDrop "" = false from by decide]

theorem countP_isCreate_header (i d : String) :
    (headerParts i d).countP isCreate = 0 := by
  simp [headerParts, List.countP_cons, isCreate_date, isCreate_dbn,
    show isCreate "-- NeonDB Backup" = false from by decide,
    show isCreate "" = false from by decide]

theorem countP_flatten_sections (p : String → Bool) (l : List Table)
    (h : ∀ t ∈ l, (tableSection t).countP p = 1) :
    ((l.map tableSection).flatten).countP p = l.length := by
  induction l with
  | nil => simp
  | cons t ts ih =>
    simp only [List.map_cons, List.flatten_cons, List.countP_append,
      List.length_cons]
    rw [h t (List.mem_cons_self t ts), ih (fun u hu => h u (List.mem_cons_of_mem t hu))]
    omega

theorem tableMarkers_append (a b : List String) :
    tableMarkers (a ++ b) = tableMarkers a ++ tableMarkers b := by
  simp [tableMarkers, List.filterMap_append]

theorem tableMarkers_insertsBatched (n : String) (bs : Nat) (rows : List Row) :
    tableMarkers (insertsBatched n bs rows) = [] := by
  rw [tableMarkers, List.filterMap_eq_nil_iff]
  intro s hs
  obtain ⟨ks, vs, rfl⟩ := mem_insertsBatched hs
  simp [hasMarker_insert]

theorem tableMarkers_cons (s : String) (l : List String) :
    tableMarkers (s :: l) =
      (if hasPref "-- Table: " s then [String.mk (s.data.drop 10)] else [])
        ++ tableMarkers l := by
  by_cases h : hasPref "-- Table: " s
  · simp [tableMarkers, List.filterMap_cons, h]
  · simp [tableMarkers, List.filterMap_cons, h]

theorem tableMarkers_nil : tableMarkers [] = [] := rfl

theorem tableMarkers_section (t : Table) :
    tableMarkers (tableSection t) = [t.name] := by
  rcases t with ⟨n, cols, rows⟩
  cases cols <;> cases rows <;>
    simp [tableSection, tableSectionFrom, createRows, tableMarkers_append,
      tableMarkers_cons, tableMarkers_nil, hasMarker_tcomment, hasMarker_drop,
      hasMarker_create, hasMarker_dcomment, tableMarkers_insertsBatched,
      marker_extract,
      show hasPref "-- Table: " "" = false from by decide]

theorem tableMarkers_header (i d : String) :
    tableMarkers (headerParts i d) = [] := by
  simp [headerParts, tableMarkers, List.filterMap_cons, hasMarker_date,
    hasMarker_dbn,
    show hasPref "-- Table: " "-- NeonDB Backup" = false from by decide,
    show hasPref "-- Table: " "" = false from by decide]

theorem tableMarkers_flatten_sections (l : List Table) :
    tableMarkers ((l.map tableSection).flatten) = l.map Table.name := by
  induction l with
  | nil => simp [tableMarkers]
  | cons t ts ih =>
    simp only [List.map_cons, List.flatten_cons, tableMarkers_append,
      tableMarkers_section, ih]
    rfl

/-! ### Claim C6: DROP and CREATE counts, lexicographic order -/

/-- A one-table schema whose table has no columns: the metadata query
returns no row, so no CREATE statement is emitted. -/
def dbNoCols : Db := ⟨[⟨"t", [], []⟩]⟩

/-- Claim C6 counterexample: a schema of one zero-column table yields
one DROP statement but zero CREATE statements, refuting the exact-N
CREATE count for arbitrary schemas. -/
theorem C6_zero_column_counterexample :
    dbNoCols.tables.length = 1 ∧
    (dumpParts "2025-11-19T01:00:00.000Z" "neondb" dbNoCols).countP isDrop = 1 ∧
    (dumpParts "2025-11-19T01:00:00.000Z" "neondb" dbNoCols).countP isCreate = 0 := by
  refine ⟨rfl, ?_, ?_⟩ <;> decide

/-- Claim C6 as amended: for any schema of N tables the artifact holds
exactly N DROP TABLE IF EXISTS statements and its per-table sections
appear in lexicographic table-name order, unconditionally; it holds
exactly N CREATE TABLE statements provided every table has at least one
column (a zero-column table contributes a DROP but no CREATE). -/
theorem C6_drop_create_counts (iso dbn : String) (db : Db) :
    (dumpParts iso dbn db).countP isDrop = db.tables.length ∧
    ((∀ t ∈ db.tables, t.cols ≠ []) →
      (dumpParts iso dbn db).countP isCreate = db.tables.length) ∧
    tableMarkers (dumpParts iso dbn db) = (sortTables db.tables).map Table.name ∧
    List.Sorted (· ≤ ·) ((sortTables db.tables).map Table.name) := by
  refine ⟨?_, fun hcols => ?_, ?_, sorted_sortTables db.tables⟩
  · rw [dumpParts, List.countP_append, countP_isDrop_header,
      countP_flatten_sections isDrop _ (fun t _ => countP_isDrop_section t),
      length_sortTables]
    omega
  · rw [dumpParts, List.countP_append, countP_isCreate_header,
      countP_flatten_sections isCreate _
        (fun t ht => countP_isCreate_section_pos t (hcols t (mem_sortTables.mp ht))),
      length_sortTables]
    omega
  · rw [dumpParts, tableMarkers_append, tableMarkers_header,
      tableMarkers_flatten_sections]
    rfl

/-- A one-table schema with one column, used as concrete witness
input. -/
def dbOneCol : Db := ⟨[⟨"users", [⟨"id", "integer", none⟩], []⟩]⟩

/-- Witness for the amended C6 at the concrete one-table schema, with
the column proviso of the CREATE-count conjunct discharged. -/
theorem C6_drop_create_counts_witness :
    (dumpParts "iso" "neondb" dbOneCol).countP isDrop = dbOneCol.tables.length ∧
    (dumpParts "iso" "neondb" dbOneCol).countP isCreate = dbOneCol.tables.length ∧
    tableMarkers (dumpParts "iso" "neondb" dbOneCol) =
      (sortTables dbOneCol.tables).map Table.name ∧
    List.Sorted (· ≤ ·) ((sortTables dbOneCol.tables).map Table.name) :=
  have h := C6_drop_create_counts "iso" "neondb" dbOneCol
  ⟨h.1, h.2.1 (by decide), h.2.2.1, h.2.2.2⟩

/-! ### Claim C8: tables with no rows -/

theorem hasPref_empty_false (A x : String) (h : A.data ≠ []) :
    hasPref (A ++ x) "" = false := by
  rw [Bool.eq_false_iff]
  intro hp
  have h1 := hasPref_iff.mp hp
  rw [String.data_append] at h1
  have h2 := List.prefix_nil.mp h1
  exact h (List.append_eq_nil.mp h2).1

theorem mem_tableSection_empty_rows {s : String} {t : Table}
    (hr : t.rows = []) (h : s ∈ tableSection t) :
    s = tcomment t.name ∨ s = dropStmt t.name ∨ s = createStmt t ∨ s = "" := by
  rcases t with ⟨n, cols, rows⟩
  simp only at hr
  subst hr
  cases cols with
  | nil =>
    simp only [tableSection, tableSectionFrom, createRows] at h
    simp only [List.append_nil, List.nil_append, List.cons_append,
      List.mem_cons, List.mem_singleton, List.not_mem_nil, or_false] at h
    rcases h with h | h | h <;> simp [h]
  | cons c cs =>
    simp only [tableSection, tableSectionFrom, createRows] at h
    simp only [List.nil_append, List.cons_append, List.mem_cons,
      List.mem_singleton, List.not_mem_nil, or_false] at h
    rcases h with h | h | h | h <;> simp [h]

theorem dcomment_inj {a b : String} (h : dcomment a = dcomment b) : a = b := by
  have hd := congrArg String.data h
  simp only [dcomment, String.data_append] at hd
  exact strExt (List.append_cancel_left hd)

theorem name_ne_of_table_ne {db : Db} {t u : Table}
    (hnd : (db.tables.map Table.name).Nodup) (ht : t ∈ db.tables)
    (hu : u ∈ db.tables) (hne : u ≠ t) : u.name ≠ t.name := by
  intro he
  exact hne (List.inj_on_of_nodup_map hnd hu ht he)

theorem isInsertFor_ne (tn un : String) (ks : List String) (vs : List JSVal)
    (htq : dquote ∉ tn.data) (huq : dquote ∉ un.data) (hne : un ≠ tn) :
    isInsertFor tn (insertStmt un ks vs) = false := by
  rw [Bool.eq_false_iff]
  intro hp
  apply hne
  rw [isInsertFor, insertForPattern_shape, insertStmt_shape] at hp
  have hp2 := hasPref_iff.mp hp
  rw [String.data_append, String.data_append, String.data_append,
    String.data_append, String.data_append] at hp2
  rw [List.append_assoc, List.append_assoc, List.prefix_append_right_inj] at hp2
  have hdq : dqS.data = [dquote] := rfl
  rw [hdq] at hp2
  have hp3 : tn.data ++ [dquote] <+:
      un.data ++ dquote :: (" (" ++ (fmtColumns ks ++ (") VALUES (" ++ (joinVals vs ++ ");")))).data := by
    simpa using hp2
  exact (strExt (eq_of_quoted_pref tn.data un.data _ htq huq hp3)).symm

theorem dropStmt_mem_section (t : Table) : dropStmt t.name ∈ tableSection t := by
  rcases t with ⟨n, cols, rows⟩
  simp [tableSection, tableSectionFrom]

theorem createStmt_mem_section (t : Table) (h : t.cols ≠ []) :
    createStmt t ∈ tableSection t := by
  rcases t with ⟨n, cols, rows⟩
  cases cols with
  | nil => exact absurd rfl h
  | cons c cs => simp [tableSection, tableSectionFrom, createRows]

theorem mem_dumpParts_of_mem_section {s : String} (iso dbn : String)
    (db : Db) (u : Table) (hu : u ∈ db.tables) (hs : s ∈ tableSection u) :
    s ∈ dumpParts iso dbn db := by
  rw [dumpParts]
  apply List.mem_append_right
  rw [List.mem_flatten]
  exact ⟨tableSection u, List.mem_map_of_mem _ (mem_sortTables.mpr hu), hs⟩

theorem countP_isInsertFor_empty_rows (iso dbn : String) (db : Db)
    (t : Table) (ht : t ∈ db.tables) (hrows : t.rows = [])
    (hnd : (db.tables.map Table.name).Nodup)
    (hq : ∀ u ∈ db.tables, dquote ∉ u.name.data) :
    (dumpParts iso dbn db).countP (isInsertFor t.name) = 0 := by
  rw [List.countP_eq_zero]
  intro s hs
  rw [Bool.not_eq_true]
  rcases List.mem_append.mp hs with hh | hf
  · simp only [headerParts, List.mem_cons, List.not_mem_nil, or_false] at hh
    rcases hh with rfl | rfl | rfl | rfl
    · rw [isInsertFor, insertForPattern_shape]
      exact hasPref_false_front _ _ _ (by decide)
    · rw [isInsertFor, insertForPattern_shape]
      exact hasPref_false_double _ _ _ _ (by decide)
    · rw [isInsertFor, insertForPattern_shape]
      exact hasPref_false_double _ _ _ _ (by decide)
    · rw [isInsertFor, insertForPattern_shape]
      exact hasPref_empty_false _ _ (by decide)
  · obtain ⟨sec, hsec, hmem⟩ := List.mem_flatten.mp hf
    obtain ⟨u, hu, rfl⟩ := List.mem_map.mp hsec
    have hu2 : u ∈ db.tables := mem_sortTables.mp hu
    by_cases hut : u = t
    · subst hut
      rcases mem_tableSection_empty_rows hrows hmem with rfl | rfl | rfl | rfl
      · rw [isInsertFor, insertForPattern_shape, tcomment]
        exact hasPref_false_double _ _ _ _ (by decide)
      · rw [isInsertFor, insertForPattern_shape, dropStmt_shape]
        exact hasPref_false_double _ _ _ _ (by decide)
      · rw [isInsertFor, insertForPattern_shape, createStmt_shape]
        exact hasPref_false_double _ _ _ _ (by decide)
      · rw [isInsertFor, insertForPattern_shape]
        exact hasPref_empty_false _ _ (by decide)
    · rcases mem_tableSection hmem with rfl | rfl | rfl | rfl | ⟨ks, vs, rfl⟩ | rfl
      · rw [isInsertFor, insertForPattern_shape, tcomment]
        exact hasPref_false_double _ _ _ _ (by decide)
      · rw [isInsertFor, insertForPattern_shape, dropStmt_shape]
        exact hasPref_false_double _ _ _ _ (by decide)
      · rw [isInsertFor, insertForPattern_shape, createStmt_shape]
        exact hasPref_false_double _ _ _ _ (by decide)
      · rw [isInsertFor, insertForPattern_shape, dcomment]
        exact hasPref_false_double _ _ _ _ (by decide)
      · exact isInsertFor_ne t.name u.name ks vs (hq t ht) (hq u hu2)
          (name_ne_of_table_ne hnd ht hu2 hut)
      · rw [isInsertFor, insertForPattern_shape]
        exact hasPref_empty_false _ _ (by decide)

theorem dcomment_not_mem_empty_rows (iso dbn : String) (db : Db)
    (t : Table) (ht : t ∈ db.tables) (hrows : t.rows = [])
    (hnd : (db.tables.map Table.name).Nodup) :
    dcomment t.name ∉ dumpParts iso dbn db := by
  intro hs
  rcases List.mem_append.mp hs with hh | hf
  · simp only [headerParts, List.mem_cons, List.not_mem_nil, or_false] at hh
    rcases hh with h | h | h | h
    · rw [dcomment] at h
      exact ne_of_front2 _ _ _ (by decide) h
    · rw [dcomment] at h
      exact ne_of_front _ _ _ _ (by decide) h
    · rw [dcomment] at h
      exact ne_of_front _ _ _ _ (by decide) h
    · rw [dcomment] at h
      exact ne_empty_of_front _ _ (by decide) h
  · obtain ⟨sec, hsec, hmem⟩ := List.mem_flatten.mp hf
    obtain ⟨u, hu, rfl⟩ := List.mem_map.mp hsec
    have hu2 : u ∈ db.tables := mem_sortTables.mp hu
    by_cases hut : u = t
    · subst hut
      rcases mem_tableSection_empty_rows hrows hmem with h | h | h | h
      · rw [dcomment, tcomment] at h
        exact ne_of_front _ _ _ _ (by decide) h
      · rw [dcomment, dropStmt_shape] at h
        exact ne_of_front _ _ _ _ (by decide) h
      · rw [dcomment, createStmt_shape] at h
        exact ne_of_front _ _ _ _ (by decide) h
      · rw [dcomment] at h
        exact ne_empty_of_front _ _ (by decide) h
    · rcases mem_tableSection hmem with h | h | h | h | ⟨ks, vs, h⟩ | h
      · rw [dcomment, tcomment] at h
        exact ne_of_front _ _ _ _ (by decide) h
      · rw [dcomment, dropStmt_shape] at h
        exact ne_of_front _ _ _ _ (by decide) h
      · rw [dcomment, createStmt_shape] at h
        exact ne_of_front _ _ _ _ (by decide) h
      · exact hut (List.inj_on_of_nodup_map hnd hu2 ht (dcomment_inj h).symm)
      · rw [dcomment, insertStmt_shape] at h
        exact ne_of_front _ _ _ _ (by decide) h
      · rw [dcomment] at h
        exact ne_empty_of_front _ _ (by decide) h

/-- Claim C8 counterexample for its DROP/CREATE-pair part: a zero-row
table with zero columns yields a DROP statement but no CREATE statement
at all, so the claimed pair is not always present. -/
theorem C8_zero_column_counterexample :
    (⟨"t", [], []⟩ : Table).rows = [] ∧
    dropStmt "t" ∈ dumpParts "iso" "neondb" dbNoCols ∧
    createStmt ⟨"t", [], []⟩ ∉ dumpParts "iso" "neondb" dbNoCols ∧
    (dumpParts "iso" "neondb" dbNoCols).countP isCreate = 0 := by
  refine ⟨rfl, ?_, ?_, ?_⟩ <;> decide

/-- Claim C8 as amended: in a schema with distinct, double-quote-free
table names, a table whose data query returns no rows contributes no
INSERT statement and no data comment to the artifact, while its DROP
statement is present, and its CREATE statement is present provided the
table has at least one column. -/
theorem C8_empty_table (iso dbn : String) (db : Db) (t : Table)
    (ht : t ∈ db.tables) (hrows : t.rows = [])
    (hnd : (db.tables.map Table.name).Nodup)
    (hq : ∀ u ∈ db.tables, dquote ∉ u.name.data) :
    (dumpParts iso dbn db).countP (isInsertFor t.name) = 0 ∧
    dcomment t.name ∉ dumpParts iso dbn db ∧
    dropStmt t.name ∈ dumpParts iso dbn db ∧
    (t.cols ≠ [] → createStmt t ∈ dumpParts iso dbn db) :=
  ⟨countP_isInsertFor_empty_rows iso dbn db t ht hrows hnd hq,
   dcomment_not_mem_empty_rows iso dbn db t ht hrows hnd,
   mem_dumpParts_of_mem_section iso dbn db t ht (dropStmt_mem_section t),
   fun hc => mem_dumpParts_of_mem_section iso dbn db t ht
     (createStmt_mem_section t hc)⟩

/-- Witness for the amended C8 at the concrete one-column zero-row
schema. -/
theorem C8_empty_table_witness :
    (dumpParts "iso" "neondb" dbOneCol).countP
      (isInsertFor (Table.name ⟨"users", [⟨"id", "integer", none⟩], []⟩)) = 0 ∧
    dcomment (Table.name ⟨"users", [⟨"id", "integer", none⟩], []⟩) ∉
      dumpParts "iso" "neondb" dbOneCol ∧
    dropStmt (Table.name ⟨"users", [⟨"id", "integer", none⟩], []⟩) ∈
      dumpParts "iso" "neondb" dbOneCol ∧
    ((⟨"users", [⟨"id", "integer", none⟩], []⟩ : Table).cols ≠ [] →
      createStmt ⟨"users", [⟨"id", "integer", none⟩], []⟩ ∈
        dumpParts "iso" "neondb" dbOneCol) :=
  C8_empty_table "iso" "neondb" dbOneCol ⟨"users", [⟨"id", "integer", none⟩], []⟩
    (by decide) rfl (by decide) (by decide)

/-! ### Claim C2: quote balance of the emitted statements -/

/-- A string free of both quote characters. -/
def noQ (s : String) : Prop := ∀ c ∈ s.data, c ≠ squote ∧ c ≠ dquote

/-- Hygiene of one row value: a Date renders its ISO text and a
passthrough value its default text into the statement unquoted, so those
texts must be quote-free; null, undefined and string values are always
rendered safely. -/
def cleanVal : JSVal → Prop
  | .date iso => noQ iso
  | .raw txt => noQ txt
  | _ => True

instance noQ.dec (s : String) : Decidable (noQ s) := by
  unfold noQ
  infer_instance

instance cleanVal.dec : (v : JSVal) → Decidable (cleanVal v)
  | .null => .isTrue trivial
  | .undef => .isTrue trivial
  | .str _ => .isTrue trivial
  | .date iso => inferInstanceAs (Decidable (noQ iso))
  | .raw txt => inferInstanceAs (Decidable (noQ txt))

/-- Hygiene of one column descriptor: its rendered column specification
is quote-free. -/
def cleanCol (c : Col) : Prop := noQ (colSpec c)

/-- Hygiene of one row: no column key holds a double quote, every value
is clean. -/
def cleanRow (r : Row) : Prop :=
  ∀ kv ∈ r, dquote ∉ (Prod.fst kv).data ∧ cleanVal (Prod.snd kv)

/-- Hygiene of one table: the name holds no double quote, all columns
and rows are clean. -/
def cleanTable (t : Table) : Prop :=
  dquote ∉ t.name.data ∧ (∀ c ∈ t.cols, cleanCol c) ∧ (∀ r ∈ t.rows, cleanRow r)

/-- Hygiene of the whole snapshot. -/
def cleanDb (db : Db) : Prop := ∀ t ∈ db.tables, cleanTable t

instance cleanCol.dec (c : Col) : Decidable (cleanCol c) := noQ.dec _

instance cleanRow.dec (r : Row) : Decidable (cleanRow r) := by
  unfold cleanRow
  infer_instance

instance cleanTable.dec (t : Table) : Decidable (cleanTable t) := by
  unfold cleanTable
  infer_instance

instance cleanDb.dec (db : Db) : Decidable (cleanDb db) := by
  unfold cleanDb
  infer_instance

theorem scanList_cons (m : ScanMode) (c : Char) (l : List Char) :
    scanList m (c :: l) = scanList (scanStep m c) l := rfl

theorem scanList_append (m : ScanMode) (a b : List Char) :
    scanList m (a ++ b) = scanList (scanList m a) b :=
  List.foldl_append scanStep m a b

theorem scanStep_other (m : ScanMode) (c : Char) (h1 : c ≠ squote)
    (h2 : c ≠ dquote) : scanStep m c = m := by
  cases m <;> simp [scanStep, h1, h2]

theorem scanList_noQuotes (m : ScanMode) (l : List Char)
    (h : ∀ c ∈ l, c ≠ squote ∧ c ≠ dquote) : scanList m l = m := by
  induction l with
  | nil => rfl
  | cons c cs ih =>
    have hc := h c (List.mem_cons_self c cs)
    rw [scanList_cons, scanStep_other m c hc.1 hc.2]
    exact ih (fun x hx => h x (List.mem_cons_of_mem c hx))

theorem scanList_inS (l : List Char) (h : ∀ c ∈ l, c ≠ squote) :
    scanList .inS l = .inS := by
  induction l with
  | nil => rfl
  | cons c cs ih =>
    have hc := h c (List.mem_cons_self c cs)
    rw [scanList_cons, show scanStep .inS c = .inS from by simp [scanStep, hc]]
    exact ih (fun x hx => h x (List.mem_cons_of_mem c hx))

theorem scanList_inD (l : List Char) (h : ∀ c ∈ l, c ≠ dquote) :
    scanList .inD l = .inD := by
  induction l with
  | nil => rfl
  | cons c cs ih =>
    have hc := h c (List.mem_cons_self c cs)
    rw [scanList_cons, show scanStep .inD c = .inD from by simp [scanStep, hc]]
    exact ih (fun x hx => h x (List.mem_cons_of_mem c hx))

theorem scanList_esc (l : List Char) :
    scanList .inS (escQuotesAux l) = .inS := by
  induction l with
  | nil => rfl
  | cons c cs ih =>
    by_cases h : c = squote
    · rw [escQuotesAux, if_pos h, scanList_cons, scanList_cons]
      rw [show scanStep ScanMode.inS squote = ScanMode.out from by decide,
        show scanStep ScanMode.out squote = ScanMode.inS from by decide]
      exact ih
    · rw [escQuotesAux, if_neg h, scanList_cons,
        show scanStep ScanMode.inS c = ScanMode.inS from by simp [scanStep, h]]
      exact ih

theorem scan_strLit (s : String) :
    scanList .out (sqS ++ escQuotes s ++ sqS).data = .out := by
  rw [String.data_append, String.data_append,
    show sqS.data = [squote] from rfl,
    show (escQuotes s).data = escQuotesAux s.data from rfl]
  rw [scanList_append, scanList_append]
  rw [show scanList ScanMode.out [squote] = ScanMode.inS from by decide]
  rw [scanList_esc]
  decide

theorem scan_dquoted (k : String) (h : dquote ∉ k.data) :
    scanList .out (dqS ++ k ++ dqS).data = .out := by
  rw [String.data_append, String.data_append,
    show dqS.data = [dquote] from rfl]
  rw [scanList_append, scanList_append]
  rw [show scanList ScanMode.out [dquote] = ScanMode.inD from by decide]
  rw [scanList_inD k.data (fun c hc => fun he => h (he ▸ hc))]
  decide

theorem scan_val (v : JSVal) (h : cleanVal v) :
    scanList .out (jsJoinStr (formatValue v)).data = .out := by
  cases v with
  | null => decide
  | undef => rfl
  | str s => exact scan_strLit s
  | date iso =>
    show scanList .out (sqS ++ iso ++ sqS).data = .out
    rw [String.data_append, String.data_append,
      show sqS.data = [squote] from rfl]
    rw [scanList_append, scanList_append]
    rw [show scanList ScanMode.out [squote] = ScanMode.inS from by decide]
    rw [scanList_inS iso.data (fun c hc => (h c hc).1)]
    decide
  | raw txt => exact scanList_noQuotes .out txt.data h

theorem scan_intercalate_go (sep : String) (l : List String) :
    ∀ acc : String, scanList .out acc.data = .out →
      scanList .out sep.data = .out →
      (∀ x ∈ l, scanList .out x.data = .out) →
      scanList .out (String.intercalate.go acc sep l).data = .out := by
  induction l with
  | nil =>
    intro acc hacc _ _
    simpa [String.intercalate.go] using hacc
  | cons a as ih =>
    intro acc hacc hsep h
    rw [String.intercalate.go]
    refine ih _ ?_ hsep (fun x hx => h x (List.mem_cons_of_mem a hx))
    rw [String.data_append, String.data_append, scanList_append,
      scanList_append, hacc, hsep]
    exact h a (List.mem_cons_self a as)

theorem scan_intercalate (sep : String) (l : List String)
    (hsep : scanList .out sep.data = .out)
    (h : ∀ x ∈ l, scanList .out x.data = .out) :
    scanList .out (String.intercalate sep l).data = .out := by
  cases l with
  | nil => rfl
  | cons a as =>
    rw [String.intercalate]
    exact scan_intercalate_go sep as a (h a (List.mem_cons_self a as)) hsep
      (fun x hx => h x (List.mem_cons_of_mem a hx))

theorem scan_joinVals (vs : List JSVal) (h : ∀ v ∈ vs, cleanVal v) :
    scanList .out (joinVals vs).data = .out := by
  rw [joinVals]
  refine scan_intercalate ", " _ (by decide) ?_
  intro x hx
  obtain ⟨v, hv, rfl⟩ := List.mem_map.mp hx
  exact scan_val v (h v hv)

theorem scan_fmtColumns (ks : List String) (h : ∀ k ∈ ks, dquote ∉ k.data) :
    scanList .out (fmtColumns ks).data = .out := by
  rw [fmtColumns]
  refine scan_intercalate ", " _ (by decide) ?_
  intro x hx
  obtain ⟨k, hk, rfl⟩ := List.mem_map.mp hx
  exact scan_dquoted k (h k hk)

theorem mem_insertsBatched_rows_aux (n : String) (bs m : Nat) :
    ∀ rows : List Row, rows.length ≤ m → ∀ s ∈ insertsBatched n bs rows,
      ∃ r0 row, r0 ∈ rows ∧ row ∈ rows ∧
        s = insertStmt n (rowKeys r0) (rowVals row) := by
  induction m with
  | zero =>
    intro rows hlen s hs
    have : rows = [] := List.eq_nil_of_length_eq_zero (Nat.le_zero.mp hlen)
    subst this
    simp [insertsBatched] at hs
  | succ m ih =>
    intro rows hlen s hs
    match rows with
    | [] => simp [insertsBatched] at hs
    | r :: rs =>
      rw [insertsBatched] at hs
      rcases List.mem_append.mp hs with h1 | h2
      · obtain ⟨row, hrow, heq⟩ := List.mem_map.mp h1
        refine ⟨r, row, List.mem_cons_self r rs, ?_, heq.symm⟩
        rcases List.mem_cons.mp hrow with rfl | hrow2
        · exact List.mem_cons_self row rs
        · exact List.mem_cons_of_mem r (List.mem_of_mem_take hrow2)
      · have hl2 : (List.drop (bs - 1) rs).length ≤ m := by
          rw [List.length_drop]
          have h3 : rs.length ≤ m := by
            simpa [Nat.succ_le_succ_iff] using hlen
          omega
        obtain ⟨r0, row, hr0, hrow, heq⟩ := ih (rs.drop (bs - 1)) hl2 s h2
        exact ⟨r0, row, List.mem_cons_of_mem r (List.mem_of_mem_drop hr0),
          List.mem_cons_of_mem r (List.mem_of_mem_drop hrow), heq⟩

theorem mem_tableSection_rows {s : String} {t : Table}
    (h : s ∈ tableSection t) :
    s = tcomment t.name ∨ s = dropStmt t.name ∨ s = createStmt t ∨
      s = dcomment t.name ∨
      (∃ r0 row, r0 ∈ t.rows ∧ row ∈ t.rows ∧
        s = insertStmt t.name (rowKeys r0) (rowVals row)) ∨ s = "" := by
  rcases t with ⟨n, cols, rows⟩
  cases hrows : rows with
  | nil =>
    subst hrows
    rcases mem_tableSection_empty_rows rfl h with h2 | h2 | h2 | h2 <;> simp [h2]
  | cons r rs =>
    subst hrows
    cases cols with
    | nil =>
      simp only [tableSection, tableSectionFrom, createRows] at h
      simp only [List.nil_append, List.cons_append, List.mem_cons,
        List.mem_append] at h
      rcases h with h | h | h | h
      · simp [h]
      · simp [h]
      · simp [h]
      rcases h with h | h
      · obtain ⟨r0, row, hr0, hrow, rfl⟩ :=
          mem_insertsBatched_rows_aux n 100 (r :: rs).length (r :: rs)
            (le_refl _) s h
        right; right; right; right; left
        exact ⟨r0, row, hr0, hrow, rfl⟩
      · have h2 : s = "" := by simpa using h
        simp [h2]
    | cons c cs =>
      simp only [tableSection, tableSectionFrom, createRows] at h
      simp only [List.nil_append, List.cons_append, List.mem_cons,
        List.mem_append] at h
      rcases h with h | h | h | h | h
      · simp [h]
      · simp [h]
      · simp [h]
      · simp [h]
      rcases h with h | h
      · obtain ⟨r0, row, hr0, hrow, rfl⟩ :=
          mem_insertsBatched_rows_aux n 100 (r :: rs).length (r :: rs)
            (le_refl _) s h
        right; right; right; right; left
        exact ⟨r0, row, hr0, hrow, rfl⟩
      · have h2 : s = "" := by simpa using h
        simp [h2]

theorem sqlPartOk_of_scan (s : String) (h1 : scanList .out s.data = .out)
    (h2 : endsSemi s = true) : sqlPartOk s = true := by
  simp [sqlPartOk, h1, h2]

theorem sqlPartOk_of_comment (s : String) (h : hasPref "--" s = true) :
    sqlPartOk s = true := by
  simp [sqlPartOk, h]

theorem sqlPartOk_drop (n : String) (h : dquote ∉ n.data) :
    sqlPartOk (dropStmt n) = true := by
  have hd : (dropStmt n).data = "DROP TABLE IF EXISTS ".data ++
      ([dquote] ++ (n.data ++ ([dquote] ++ " CASCADE;".data))) := by
    simp [dropStmt, String.data_append, show dqS.data = [dquote] from rfl]
  apply sqlPartOk_of_scan
  · rw [hd, scanList_append,
      show scanList ScanMode.out ("DROP TABLE IF EXISTS ".data) = ScanMode.out
        from by decide,
      scanList_append,
      show scanList ScanMode.out [dquote] = ScanMode.inD from by decide,
      scanList_append,
      scanList_inD n.data (fun c hc he => h (he ▸ hc)),
      scanList_append,
      show scanList ScanMode.inD [dquote] = ScanMode.out from by decide]
    decide
  · have hlast : (dropStmt n).data.getLast? = some ';' := by
      rw [hd]
      rw [show "DROP TABLE IF EXISTS ".data ++
          ([dquote] ++ (n.data ++ ([dquote] ++ " CASCADE;".data))) =
          ("DROP TABLE IF EXISTS ".data ++ ([dquote] ++ (n.data ++ [dquote])))
            ++ " CASCADE;".data from by simp]
      rw [List.getLast?_append_of_ne_nil _ (by decide)]
      decide
    simp [endsSemi, hlast]

theorem sqlPartOk_create (t : Table) (hn : dquote ∉ t.name.data)
    (hc : ∀ c ∈ t.cols, cleanCol c) : sqlPartOk (createStmt t) = true := by
  have hd : (createStmt t).data = "CREATE TABLE ".data ++
      ([dquote] ++ (t.name.data ++ ([dquote] ++ (" (".data ++
        ((String.intercalate ", " (t.cols.map colSpec)).data ++ ");".data))))) := by
    simp [createStmt, String.data_append, show dqS.data = [dquote] from rfl]
  have hmid : scanList ScanMode.out
      (String.intercalate ", " (t.cols.map colSpec)).data = ScanMode.out := by
    refine scan_intercalate ", " _ (by decide) ?_
    intro x hx
    obtain ⟨c, hcm, rfl⟩ := List.mem_map.mp hx
    exact scanList_noQuotes .out (colSpec c).data (hc c hcm)
  apply sqlPartOk_of_scan
  · rw [hd, scanList_append,
      show scanList ScanMode.out ("CREATE TABLE ".data) = ScanMode.out
        from by decide,
      scanList_append,
      show scanList ScanMode.out [dquote] = ScanMode.inD from by decide,
      scanList_append,
      scanList_inD t.name.data (fun c hcm he => hn (he ▸ hcm)),
      scanList_append,
      show scanList ScanMode.inD [dquote] = ScanMode.out from by decide,
      scanList_append,
      show scanList ScanMode.out (" (".data) = ScanMode.out from by decide,
      scanList_append, hmid]
    decide
  · have hlast : (createStmt t).data.getLast? = some ';' := by
      rw [hd]
      rw [show "CREATE TABLE ".data ++
          ([dquote] ++ (t.name.data ++ ([dquote] ++ (" (".data ++
            ((String.intercalate ", " (t.cols.map colSpec)).data ++ ");".data))))) =
          ("CREATE TABLE ".data ++ ([dquote] ++ (t.name.data ++ ([dquote] ++
            (" (".data ++ (String.intercalate ", " (t.cols.map colSpec)).data)))))
            ++ ");".data from by simp]
      rw [List.getLast?_append_of_ne_nil _ (by decide)]
      decide
    simp [endsSemi, hlast]

theorem sqlPartOk_insert (n : String) (ks : List String) (vs : List JSVal)
    (hn : dquote ∉ n.data) (hks : ∀ k ∈ ks, dquote ∉ k.data)
    (hvs : ∀ v ∈ vs, cleanVal v) : sqlPartOk (insertStmt n ks vs) = true := by
  have hd : (insertStmt n ks vs).data = "INSERT INTO ".data ++
      ([dquote] ++ (n.data ++ ([dquote] ++ (" (".data ++
        ((fmtColumns ks).data ++ (") VALUES (".data ++
          ((joinVals vs).data ++ ");".data))))))) := by
    simp [insertStmt, String.data_append, show dqS.data = [dquote] from rfl]
  apply sqlPartOk_of_scan
  · rw [hd, scanList_append,
      show scanList ScanMode.out ("INSERT INTO ".data) = ScanMode.out
        from by decide,
      scanList_append,
      show scanList ScanMode.out [dquote] = ScanMode.inD from by decide,
      scanList_append,
      scanList_inD n.data (fun c hcm he => hn (he ▸ hcm)),
      scanList_append,
      show scanList ScanMode.inD [dquote] = ScanMode.out from by decide,
      scanList_append,
      show scanList ScanMode.out (" (".data) = ScanMode.out from by decide,
      scanList_append, scan_fmtColumns ks hks,
      scanList_append,
      show scanList ScanMode.out (") VALUES (".data) = ScanMode.out
        from by decide,
      scanList_append, scan_joinVals vs hvs]
    decide
  · have hlast : (insertStmt n ks vs).data.getLast? = some ';' := by
      rw [hd]
      rw [show "INSERT INTO ".data ++
          ([dquote] ++ (n.data ++ ([dquote] ++ (" (".data ++
            ((fmtColumns ks).data ++ (") VALUES (".data ++
              ((joinVals vs).data ++ ");".data))))))) =
          ("INSERT INTO ".data ++ ([dquote] ++ (n.data ++ ([dquote] ++
            (" (".data ++ ((fmtColumns ks).data ++ (") VALUES (".data ++
              (joinVals vs).data))))))) ++ ");".data from by simp]
      rw [List.getLast?_append_of_ne_nil _ (by decide)]
      decide
    simp [endsSemi, hlast]

/-- A schema whose single table name embeds a double quote: the worker
interpolates it into the identifier quoting unescaped. -/
def dbBadName : Db := ⟨[⟨String.mk [Char.ofNat 97, dquote, Char.ofNat 98], [], []⟩]⟩

/-- Claim C2 counterexample: a table name containing a double quote
produces a DROP statement whose identifier quoting is unbalanced, so not
every artifact statement is properly quoted. -/
theorem C2_unescaped_identifier_counterexample :
    dropStmt (String.mk [Char.ofNat 97, dquote, Char.ofNat 98]) ∈
      dumpParts "iso" "neondb" dbBadName ∧
    sqlPartOk (dropStmt (String.mk [Char.ofNat 97, dquote, Char.ofNat 98])) =
      false := by
  refine ⟨?_, ?_⟩ <;> decide

/-- Claim C2 as amended: provided table names, column keys and rendered
column specifications contain no double quote, and Date and passthrough
values render quote-free text, every emitted part is either a blank
separator, a comment line, or a statement that is semicolon-terminated
with balanced quoting; for names embedding a double quote this fails
(see the counterexample). -/
theorem C2_statements_wellformed (iso dbn : String) (db : Db)
    (hclean : cleanDb db) :
    ∀ p ∈ dumpParts iso dbn db, sqlPartOk p = true := by
  intro p hp
  rcases List.mem_append.mp hp with hh | hf
  · simp only [headerParts, List.mem_cons, List.not_mem_nil, or_false] at hh
    rcases hh with rfl | rfl | rfl | rfl
    · decide
    · exact sqlPartOk_of_comment _ (hasPref_true_front _ _ _ (by decide))
    · exact sqlPartOk_of_comment _ (hasPref_true_front _ _ _ (by decide))
    · decide
  · obtain ⟨sec, hsec, hmem⟩ := List.mem_flatten.mp hf
    obtain ⟨u, hu, rfl⟩ := List.mem_map.mp hsec
    have hu2 : u ∈ db.tables := mem_sortTables.mp hu
    obtain ⟨hname, hcols, hrows⟩ := hclean u hu2
    rcases mem_tableSection_rows hmem with rfl | rfl | rfl | rfl |
      ⟨r0, row, hr0, hrow, rfl⟩ | rfl
    · refine sqlPartOk_of_comment _ ?_
      rw [tcomment]
      exact hasPref_true_front _ _ _ (by decide)
    · exact sqlPartOk_drop u.name hname
    · exact sqlPartOk_create u hname hcols
    · refine sqlPartOk_of_comment _ ?_
      rw [dcomment]
      exact hasPref_true_front _ _ _ (by decide)
    · refine sqlPartOk_insert u.name _ _ hname ?_ ?_
      · intro k hk
        obtain ⟨kv, hkv, rfl⟩ := List.mem_map.mp hk
        exact (hrows r0 hr0 kv hkv).1
      · intro v hv
        obtain ⟨kv, hkv, rfl⟩ := List.mem_map.mp hv
        exact (hrows row hrow kv hkv).2
    · decide

/-- Witness for the amended C2: the DROP statement of the clean
one-column schema passes the well-formedness check. -/
theorem C2_statements_wellformed_witness :
    sqlPartOk (dropStmt "users") = true :=
  C2_statements_wellformed "iso" "neondb" dbOneCol (by decide)
    (dropStmt "users") (by decide)

/-! ### Claim C7: filename ordering -/

theorem padNat_length (w : Nat) : ∀ n : Nat, (padNat w n).length = w := by
  induction w with
  | zero => intro n; rfl
  | succ w ih => intro n; simp [padNat, ih]

theorem lex_app_right (p a b : List Char) (h : a < b) : p ++ a < p ++ b := by
  induction p with
  | nil => simpa using h
  | cons c cs ih => exact List.Lex.cons ih

theorem lex_app_congr : ∀ a b c d : List Char, a.length = b.length →
    a < b → a ++ c < b ++ d := by
  intro a
  induction a with
  | nil =>
    intro b c d hlen h
    cases b with
    | nil =>
      have h2 : List.Lex (· < ·) ([] : List Char) [] := h
      cases h2
    | cons x xs => simp at hlen
  | cons a as ih =>
    intro b c d hlen h
    cases b with
    | nil => simp at hlen
    | cons b bs =>
      have h2 : List.Lex (· < ·) (a :: as) (b :: bs) := h
      cases h2 with
      | cons h3 => exact List.Lex.cons (ih bs c d (by simpa using hlen) h3)
      | rel h3 => exact List.Lex.rel h3

theorem digitChar_mono (a b : Nat) (ha : a < 10) (hb : b < 10) :
    a < b → Nat.digitChar a < Nat.digitChar b := by
  interval_cases a <;> interval_cases b <;> decide

theorem padNat_lt (w : Nat) : ∀ n m : Nat, n < m → m < 10 ^ w →
    padNat w n < padNat w m := by
  induction w with
  | zero =>
    intro n m h hm
    simp at hm
    omega
  | succ w ih =>
    intro n m h hm
    rw [padNat, padNat]
    rcases Nat.lt_or_ge (n / 10) (m / 10) with hdiv | hdiv
    · have hm10 : m / 10 < 10 ^ w := by
        rw [Nat.div_lt_iff_lt_mul (by decide : 0 < 10)]
        calc m < 10 ^ (w + 1) := hm
        _ = 10 ^ w * 10 := by rw [pow_succ]
      exact lex_app_congr _ _ _ _
        (by rw [padNat_length, padNat_length]) (ih _ _ hdiv hm10)
    · have hdeq : n / 10 = m / 10 :=
        le_antisymm (Nat.div_le_div_right (le_of_lt h)) hdiv
      have hmod : n % 10 < m % 10 := by
        have hn10 := Nat.div_add_mod n 10
        have hm10 := Nat.div_add_mod m 10
        omega
      rw [hdeq]
      apply lex_app_right
      exact List.Lex.rel (digitChar_mono _ _ (Nat.mod_lt _ (by decide))
        (Nat.mod_lt _ (by decide)) hmod)

theorem replDashChar_digit (d : Nat) (h : d < 10) :
    replDashChar (Nat.digitChar d) = Nat.digitChar d := by
  interval_cases d <;> decide

theorem map_replDash_padNat (w : Nat) : ∀ n : Nat,
    (padNat w n).map replDashChar = padNat w n := by
  induction w with
  | zero => intro n; rfl
  | succ w ih =>
    intro n
    rw [padNat, List.map_append, ih]
    simp [replDashChar_digit _ (Nat.mod_lt _ (by decide))]

/-- The character sequence of the generated filename, with each
fixed-width numeric field explicit. -/
def fnameData (t : Timestamp) : List Char :=
  "backup-".data ++ (padNat 4 t.year ++ ("-".data ++ (padNat 2 t.month ++ ("-".data ++ (padNat 2 t.day ++ ("T".data ++ (padNat 2 t.hour ++ ("-".data ++ (padNat 2 t.minute ++ ("-".data ++ (padNat 2 t.second ++ ("-".data ++ (padNat 3 t.ms ++ ("Z".data ++ (".sql".data)))))))))))))))

theorem data_mk (l : List Char) : (String.mk l).data = l := rfl

theorem nextFilename_data (t : Timestamp) :
    (nextFilename t).data = fnameData t := by
  simp only [nextFilename, replDash, isoString, padS, fnameData,
    String.data_append, data_mk, List.map_append, map_replDash_padNat,
    List.append_assoc,
    show List.map replDashChar ("-".data) = "-".data from by decide,
    show List.map replDashChar (":".data) = "-".data from by decide,
    show List.map replDashChar (".".data) = "-".data from by decide,
    show List.map replDashChar ("T".data) = "T".data from by decide,
    show List.map replDashChar ("Z".data) = "Z".data from by decide]

/-- Timestamp fields within the widths the ISO format prints. -/
def tsValid (t : Timestamp) : Prop :=
  t.year < 10 ^ 4 ∧ t.month < 10 ^ 2 ∧ t.day < 10 ^ 2 ∧ t.hour < 10 ^ 2 ∧
    t.minute < 10 ^ 2 ∧ t.second < 10 ^ 2 ∧ t.ms < 10 ^ 3

/-- Chronological order at millisecond resolution of broken-down UTC
timestamps: lexicographic order of the fields. -/
def tsLt (a b : Timestamp) : Prop :=
  a.year < b.year ∨ (a.year = b.year ∧ (a.month < b.month ∨ (a.month = b.month ∧
    (a.day < b.day ∨ (a.day = b.day ∧ (a.hour < b.hour ∨ (a.hour = b.hour ∧
      (a.minute < b.minute ∨ (a.minute = b.minute ∧ (a.second < b.second ∨
        (a.second = b.second ∧ a.ms < b.ms)))))))))))

instance tsValid.dec (t : Timestamp) : Decidable (tsValid t) := by
  unfold tsValid
  infer_instance

instance tsLt.dec (a b : Timestamp) : Decidable (tsLt a b) := by
  unfold tsLt
  infer_instance

/-- Claim C7: for valid timestamps, strictly increasing at millisecond
resolution, the derived backup filenames are strictly increasing in
lexicographic string order. -/
theorem C7_filename_lexicographic (t1 t2 : Timestamp) (h1 : tsValid t1)
    (h2 : tsValid t2) (hlt : tsLt t1 t2) :
    nextFilename t1 < nextFilename t2 := by
  obtain ⟨hy1, hmo1, hd1, hh1, hmi1, hs1, hms1⟩ := h1
  obtain ⟨hy2, hmo2, hd2, hh2, hmi2, hs2, hms2⟩ := h2
  rw [String.lt_iff_toList_lt]
  show (nextFilename t1).data < (nextFilename t2).data
  rw [nextFilename_data, nextFilename_data, fnameData, fnameData]
  rcases hlt with hy | ⟨hye, hlt⟩
  · apply lex_app_right
    exact lex_app_congr _ _ _ _
      (by rw [padNat_length, padNat_length]) (padNat_lt 4 _ _ hy hy2)
  rw [hye]
  rcases hlt with hmo | ⟨hmoe, hlt⟩
  · apply lex_app_right
    apply lex_app_right
    apply lex_app_right
    exact lex_app_congr _ _ _ _
      (by rw [padNat_length, padNat_length]) (padNat_lt 2 _ _ hmo hmo2)
  rw [hmoe]
  rcases hlt with hd | ⟨hde, hlt⟩
  · apply lex_app_right
    apply lex_app_right
    apply lex_app_right
    apply lex_app_right
    apply lex_app_right
    exact lex_app_congr _ _ _ _
      (by rw [padNat_length, padNat_length]) (padNat_lt 2 _ _ hd hd2)
  rw [hde]
  rcases hlt with hh | ⟨hhe, hlt⟩
  · apply lex_app_right
    apply lex_app_right
    apply lex_app_right
    apply lex_app_right
    apply lex_app_right
    apply lex_app_right
    apply lex_app_right
    exact lex_app_congr _ _ _ _
      (by rw [padNat_length, padNat_length]) (padNat_lt 2 _ _ hh hh2)
  rw [hhe]
  rcases hlt with hmi | ⟨hmie, hlt⟩
  · apply lex_app_right
    apply lex_app_right
    apply lex_app_right
    apply lex_app_right
    apply lex_app_right
    apply lex_app_right
    apply lex_app_right
    apply lex_app_right
    apply lex_app_right
    exact lex_app_congr _ _ _ _
      (by rw [padNat_length, padNat_length]) (padNat_lt 2 _ _ hmi hmi2)
  rw [hmie]
  rcases hlt with hs | ⟨hse, hms⟩
  · apply lex_app_right
    apply lex_app_right
    apply lex_app_right
    apply lex_app_right
    apply lex_app_right
    apply lex_app_right
    apply lex_app_right
    apply lex_app_right
    apply lex_app_right
    apply lex_app_right
    apply lex_app_right
    exact lex_app_congr _ _ _ _
      (by rw [padNat_length, padNat_length]) (padNat_lt 2 _ _ hs hs2)
  rw [hse]
  apply lex_app_right
  apply lex_app_right
  apply lex_app_right
  apply lex_app_right
  apply lex_app_right
  apply lex_app_right
  apply lex_app_right
  apply lex_app_right
  apply lex_app_right
  apply lex_app_right
  apply lex_app_right
  apply lex_app_right
  apply lex_app_right
  exact lex_app_congr _ _ _ _
    (by rw [padNat_length, padNat_length]) (padNat_lt 3 _ _ hms hms2)

/-- Witness for C7 at two concrete timestamps one millisecond apart. -/
theorem C7_filename_lexicographic_witness :
    nextFilename ts0 < nextFilename ⟨2025, 11, 19, 1, 0, 0, 1⟩ :=
  C7_filename_lexicographic ts0 ⟨2025, 11, 19, 1, 0, 0, 1⟩
    (by decide) (by decide) (by decide)

end NeonBackup
